import Mathlib

/-!
Verification of the design-matrix construction pipeline in `moss/glm.py`.

The Python source is shallowly embedded below: arrays over the acquisition
or hires grids become Lean lists or functions over `Fin`/`ℕ`, float
arithmetic becomes exact arithmetic over `ℚ` (or `ℝ` where transcendental
functions appear), and fallible operations return `Except`/`Option`.
Definitions are translated from the source file; theorems at the end settle
the specification claims against them.
-/

open scoped Matrix

namespace Moss

/-! ### Generic array helpers (numpy semantics) -/

/-- `np.searchsorted(a, v)` with the default `side="left"`: the index of the
first element of `a` that is `≥ v`, assuming `a` is sorted ascending (for a
sorted list this is the length of the prefix of elements `< v`). -/
def searchsorted (a : List ℚ) (v : ℚ) : ℕ :=
  (a.takeWhile (fun x => x < v)).length

/-! ### Event encoder: `DesignMatrix._make_hires_ev_base`

The embedding below is the body of `_make_hires_ev_base` specialised to an
`info` table holding exactly one event row `(onset, duration, value)` — the
case claim C1 quantifies over.  `hft` is `self._hires_frametimes`.  The
numpy steps `ev[t_onset] += vals`, the zero-duration offset bump, the
`ev[t_offset] -= vals` and the final `np.cumsum(ev)` are written out
index-by-index. -/

/-- The delta array `ev` right before `np.cumsum`: `+value` at the onset
index and `-value` at the offset index. -/
def evDeltas (tOn tOff : ℕ) (value : ℚ) (k : ℕ) : ℚ :=
  (if k = tOn then value else 0) + (if k = tOff then -value else 0)

/-- `DesignMatrix._make_hires_ev_base` for a single event.
`t_onset = min(searchsorted(hft, onset), tmax - 1)`,
`t_offset = min(searchsorted(hft, onset + duration), len(hft) - 1)`, then the
zero-duration fix-up (`if off < tmax - 1 and off == t_onset: t_offset += 1`),
and finally the cumulative sum realising the boxcar. -/
def make_hires_ev_base (hft : List ℚ) (onset duration value : ℚ) : List ℚ :=
  let tmax := hft.length
  let tOn := min (searchsorted hft onset) (tmax - 1)
  let tOff0 := min (searchsorted hft (onset + duration)) (tmax - 1)
  let tOff := if tOff0 < tmax - 1 ∧ tOff0 = tOn then tOff0 + 1 else tOff0
  (List.range tmax).map (fun j => ∑ k ∈ Finset.range (j + 1), evDeltas tOn tOff value k)

/-! ### Final demeaning: `X -= X.mean(axis=0)`

`DesignMatrix.__init__` assembles the full matrix `X` by concatenating the
condition, regressor, confound and artifact pieces and then subtracts the
column means.  A column over the acquisition grid of `n` frametimes is a
function `Fin n → ℚ`; the assembled matrix is an arbitrary list of such
columns (covering every combination of pieces). -/

/-- Mean of a column over the acquisition grid (`ntp = n` rows). -/
def colMean (n : ℕ) (c : Fin n → ℚ) : ℚ :=
  (∑ i, c i) / n

/-- One column of `X - X.mean(axis=0)`. -/
def demeanCol (n : ℕ) (c : Fin n → ℚ) : Fin n → ℚ :=
  fun i => c i - colMean n c

/-- `X -= X.mean(axis=0)` applied to the whole assembled matrix. -/
def demeanMatrix (n : ℕ) (cols : List (Fin n → ℚ)) : List (Fin n → ℚ) :=
  cols.map (demeanCol n)

/-! ### `FIR.__init__`

The Python body is `return NotImplementedError` — it *returns* the exception
class instead of raising it.  CPython's constructor machinery
(`type.__call__`) raises `TypeError` whenever `__init__` returns a value
other than `None`, so the observable outcome of `FIR()` is modelled
explicitly. -/

/-- A Python value, as far as the FIR constructor is concerned. -/
inductive PyVal where
  | noneV : PyVal
  | excClass (name : String) : PyVal
  | inst (cls : String) : PyVal
  deriving DecidableEq

/-- Outcome of running a Python callable: a returned value or a raised
exception (identified by its class name). -/
inductive PyOutcome where
  | returns (v : PyVal) : PyOutcome
  | raises (e : String) : PyOutcome
  deriving DecidableEq

/-- Body of `FIR.__init__`: `return NotImplementedError` returns the
exception class object; nothing is raised by the body itself. -/
def FIR_init_body : PyOutcome :=
  PyOutcome.returns (PyVal.excClass "NotImplementedError")

/-- Outcome of evaluating `FIR()`: CPython runs `__init__` and, because its
return value is not `None`, raises `TypeError` from `type.__call__`. -/
def constructFIR : PyOutcome :=
  match FIR_init_body with
  | PyOutcome.raises e => PyOutcome.raises e
  | PyOutcome.returns v =>
      if v = PyVal.noneV then PyOutcome.returns (PyVal.inst "FIR")
      else PyOutcome.raises "TypeError"

/-! ### Component validation: `DesignMatrix._validate_component`

Components arrive either as a raw 2-D array (no index, no column names) or
as a labelled DataFrame.  Column labels can be integers (pandas default
`RangeIndex` columns) or strings. -/

/-- A pandas column label. -/
inductive ColLabel where
  | int (i : ℤ) : ColLabel
  | str (s : String) : ColLabel
  deriving DecidableEq

/-- `pd.Series([base + "_%d"] * n) % range(n)`: the synthesized default
names `base_0, …, base_{n-1}`. -/
def defaultNames (base : String) (n : ℕ) : List ColLabel :=
  (List.range n).map (fun i => ColLabel.str (base ++ "_" ++ toString i))

/-- A pandas DataFrame: a time index, column labels, and the data held as a
list of rows. -/
structure DFrame where
  index : List ℚ
  names : List ColLabel
  data : List (List ℚ)
  deriving DecidableEq

/-- An argument to `_validate_component`: raw array or DataFrame. -/
inductive PyComponent where
  | arr (data : List (List ℚ)) : PyComponent
  | df (index : List ℚ) (names : List ColLabel) (data : List (List ℚ)) : PyComponent

/-- The body of `_validate_component` shared by the array and DataFrame
paths, starting at the `names.tolist() == list(range(n))` rename.

* Integer `0..n-1` column labels are replaced with synthesized names.
* The time index must equal the acquisition frametimes or the plain
  positional range `0..len(comp)-1` (`np.all` of an elementwise comparison;
  under the numpy of this code's era a length-mismatched comparison
  evaluates to scalar `False`, so this is list equality); otherwise the
  `ValueError` — the spec's AlignmentError — is raised.
* On success `comp.index = self.frametimes` reindexes the component onto
  the acquisition grid; pandas raises a length-mismatch `ValueError` there
  when the component's row count differs from the grid length. -/
def validate_df (frametimes : List ℚ) (base : String) (comp : DFrame) :
    Except String (Option DFrame) :=
  let n := comp.names.length
  let finalNames : List ColLabel :=
    if comp.names = (List.range n).map (fun i => ColLabel.int i) then
      defaultNames base n
    else comp.names
  if comp.index = frametimes ∨
      comp.index = (List.range comp.data.length).map (fun i => (i : ℚ)) then
    if comp.data.length = frametimes.length then
      Except.ok (some ⟨frametimes, finalNames, comp.data⟩)
    else
      Except.error ("Length mismatch: Expected axis has " ++
        toString comp.data.length ++ " elements, new values have " ++
        toString frametimes.length ++ " elements")
  else
    Except.error ("Frametimes for " ++ base ++ "s do not match design.")

/-- `DesignMatrix._validate_component(comp, name_base)`.

* `None` passes through.
* A raw array is wrapped as `pd.DataFrame(comp, self.frametimes, names)`
  with synthesized names; the DataFrame constructor itself raises when the
  array's row count differs from the frametimes length.
* Both paths then run the shared rename / alignment-check / reindex tail
  (`validate_df`). -/
def validate_component (frametimes : List ℚ) (base : String) :
    Option PyComponent → Except String (Option DFrame)
  | none => Except.ok none
  | some (PyComponent.arr data) =>
      if data.length = frametimes.length then
        validate_df frametimes base
          ⟨frametimes, defaultNames base (data.headD []).length, data⟩
      else
        Except.error ("Shape of passed values is (" ++ toString data.length ++
          ", _), indices imply (" ++ toString frametimes.length ++ ", _)")
  | some (PyComponent.df idx names data) =>
      validate_df frametimes base ⟨idx, names, data⟩

/-! ### Artifact handling in `DesignMatrix.__init__` and
`DesignMatrix.artifact_submatrix` -/

/-- Indices of the `True` entries of the artifact mask
(`np.where(artifacts)`). -/
def np_where_true (mask : List Bool) : List ℕ :=
  (List.range mask.length).filter (fun i => mask.getD i false)

/-- `art = np.zeros((artifacts.size, n_art)); art[np.where(artifacts),
np.arange(n_art)] = 1`: column `k` is the one-hot indicator of the `k`-th
flagged frame.  Columns are listed column-by-column. -/
def artifact_columns (mask : List Bool) : List (List ℚ) :=
  (np_where_true mask).map
    (fun idx => (List.range mask.length).map (fun i => if i = idx then (1 : ℚ) else 0))

/-- The artifact branch of `DesignMatrix.__init__`: a supplied mask with at
least one `True` entry is expanded to one-hot columns; a mask with no `True`
entry is replaced by `None`. -/
def process_artifacts (artifacts : Option (List Bool)) : Option (List (List ℚ)) :=
  match artifacts with
  | none => none
  | some mask =>
      if mask.any (fun b => b) then some (artifact_columns mask) else none

/-- `self._artifact_names`: empty when no artifact columns exist, otherwise
the synthesized `artifact_*` names from `_validate_component`. -/
def artifact_names (artifacts : Option (List Bool)) : List ColLabel :=
  match process_artifacts artifacts with
  | none => []
  | some cols => defaultNames "artifact" cols.length

/-- `DesignMatrix.artifact_submatrix`: `None` when `self._artifact_names` is
empty, otherwise the named columns of the full matrix. -/
def artifact_submatrix (names : List ColLabel) (X : List (ColLabel × List ℚ)) :
    Option (List (ColLabel × List ℚ)) :=
  if names = [] then none else some (X.filter (fun c => c.1 ∈ names))

/-! ### Column bookkeeping and mask vectors in `DesignMatrix.__init__`

After assembly, `X.columns` is the concatenation of the condition columns
(plus, when the HRF has a temporal derivative, one `"{cond}_deriv"` column
per condition, appended after all plain condition columns by `_convolve`),
the regressor columns, the confound columns and the artifact columns.
`main_vector = cols.isin(condition_names + regressor_names)`;
`confound_vector`/`artifact_vector` are `cols.isin(...)` when the component
exists and `None` otherwise.  The three optional components are modelled as
`Option (List String)` of column names (`none` = component absent). -/

/-- The derivative column name produced by `GammaDifferenceHRF.convolve`. -/
def deriv_name (c : String) : String := c ++ "_deriv"

/-- Columns of the condition piece: the condition names, followed by the
derivative columns when the HRF model has a temporal derivative. -/
def condition_columns (condNames : List String) (deriv : Bool) : List String :=
  if deriv then condNames ++ condNames.map deriv_name else condNames

/-- `X.columns` of the fully assembled design matrix. -/
def design_columns (condNames : List String) (deriv : Bool)
    (regs confs arts : Option (List String)) : List String :=
  condition_columns condNames deriv ++ regs.getD [] ++ confs.getD [] ++ arts.getD []

/-- `cols.isin(names)` as a boolean vector over the columns. -/
def isinMask (cols names : List String) : List Bool :=
  cols.map (fun c => decide (c ∈ names))

/-- `self.main_vector = cols.isin(main_names)` with
`main_names = condition_names + regressor_names`. -/
def main_vector (condNames : List String) (deriv : Bool)
    (regs confs arts : Option (List String)) : List Bool :=
  isinMask (design_columns condNames deriv regs confs arts) (condNames ++ regs.getD [])

/-- `self.confound_vector`: `None` when no confounds were supplied. -/
def confound_vector (condNames : List String) (deriv : Bool)
    (regs confs arts : Option (List String)) : Option (List Bool) :=
  confs.map (fun cn => isinMask (design_columns condNames deriv regs confs arts) cn)

/-- `self.artifact_vector`: `None` when no artifacts were supplied. -/
def artifact_vector (condNames : List String) (deriv : Bool)
    (regs confs arts : Option (List String)) : Option (List Bool) :=
  arts.map (fun an => isinMask (design_columns condNames deriv regs confs arts) an)

/-- Entry `j` of an optional mask; an absent mask selects nothing. -/
def optMaskAt (m : Option (List Bool)) (j : ℕ) : Bool :=
  (m.getD []).getD j false

/-- Column `j` lies in the union `main_vector | confound_vector |
artifact_vector`. -/
def coveredAt (condNames : List String) (deriv : Bool)
    (regs confs arts : Option (List String)) (j : ℕ) : Bool :=
  (main_vector condNames deriv regs confs arts).getD j false ||
    optMaskAt (confound_vector condNames deriv regs confs arts) j ||
    optMaskAt (artifact_vector condNames deriv regs confs arts) j

/-- The union of the three masks covers every column of the design matrix. -/
def masks_cover (condNames : List String) (deriv : Bool)
    (regs confs arts : Option (List String)) : Prop :=
  ∀ j, j < (design_columns condNames deriv regs confs arts).length →
    coveredAt condNames deriv regs confs arts j = true

/-- The three masks are pairwise mutually exclusive. -/
def masks_exclusive (condNames : List String) (deriv : Bool)
    (regs confs arts : Option (List String)) : Prop :=
  ∀ j : ℕ,
    ¬((main_vector condNames deriv regs confs arts).getD j false = true ∧
        optMaskAt (confound_vector condNames deriv regs confs arts) j = true) ∧
    ¬((main_vector condNames deriv regs confs arts).getD j false = true ∧
        optMaskAt (artifact_vector condNames deriv regs confs arts) j = true) ∧
    ¬(optMaskAt (confound_vector condNames deriv regs confs arts) j = true ∧
        optMaskAt (artifact_vector condNames deriv regs confs arts) j = true)

/-! ### `GammaDifferenceHRF.kernel`

The kernel is evaluated on `np.linspace(0, kernel_secs, kernel_secs / dt)`
with `dt = tr / oversampling` (numpy truncates the float count to an
integer), as `gamma.pdf(t, pos_shape, scale=pos_scale) - ratio *
gamma.pdf(t, neg_shape, scale=neg_scale)`, then divided by its own sum. -/

/-- `scipy.stats.gamma(shape, scale=scale).pdf(x)`:
`x^(shape-1) · exp(-x/scale) / (Γ(shape) · scale^shape)` on `x ≥ 0` and `0`
for `x < 0`.  (At the singular point `x = 0` with `shape < 1`, where scipy
reports `inf`, real exponentiation gives `0` — no claim here touches that
point.) -/
noncomputable def gamma_pdf (shape scale x : ℝ) : ℝ :=
  if x < 0 then 0
  else x ^ (shape - 1) * Real.exp (-(x / scale)) / (Real.Gamma shape * scale ^ shape)

/-- `np.linspace(start, stop, num)`: `num` evenly spaced points including
both endpoints (one point = `[start]`, zero points = `[]`). -/
noncomputable def linspace (start stop : ℝ) (num : ℕ) : List ℝ :=
  if num = 1 then [start]
  else (List.range num).map (fun i => start + (stop - start) * i / ((num : ℝ) - 1))

/-- `self._timepoints = np.linspace(0, kernel_secs, kernel_secs / dt)` with
`dt = tr / oversampling`; numpy truncates the float point count with
`int()`. -/
noncomputable def hrf_timepoints (tr oversampling kernelSecs : ℚ) : List ℝ :=
  linspace 0 (kernelSecs : ℝ) ((kernelSecs / (tr / oversampling)).floor.toNat)

/-- The unnormalized kernel `y = pos.pdf(t) - ratio * neg.pdf(t)`. -/
noncomputable def gamma_diff_raw (posShape posScale negShape negScale rho : ℝ)
    (tps : List ℝ) : List ℝ :=
  tps.map (fun t => gamma_pdf posShape posScale t - rho * gamma_pdf negShape negScale t)

/-- The normalized kernel `y /= y.sum()` (main channel). -/
noncomputable def gamma_diff_kernel (posShape posScale negShape negScale rho : ℝ)
    (tps : List ℝ) : List ℝ :=
  (gamma_diff_raw posShape posScale negShape negScale rho tps).map
    (fun v => v / (gamma_diff_raw posShape posScale negShape negScale rho tps).sum)

/-! ### Resampler: `DesignMatrix._subsample_condition_matrix`

`scipy.interpolate.interp1d(x, y, kind="nearest")` selects `y[i]` where `i`
is found by a left-sided search of the midpoints between consecutive `x`
values, clipped to the valid index range; with the default `bounds_error`
the call fails when the query point lies outside `[x[0], x[-1]]`.  The
column is resampled at `frametimes + tr / 2`. -/

/-- Midpoints between consecutive grid points (`(x[1:] + x[:-1]) / 2`). -/
def consecMidpoints (xs : List ℚ) : List ℚ :=
  List.zipWith (fun a b => (a + b) / 2) xs xs.tail

/-- Nearest-neighbor interpolation of `(xs, ys)` at `t`, with the bounds
check; `none` models the raised bounds error. -/
def interp1d_nearest (xs ys : List ℚ) (t : ℚ) : Option ℚ :=
  if xs = [] then none
  else if t < xs.headD 0 ∨ xs.getLastD 0 < t then none
  else some (ys.getD (min (searchsorted (consecMidpoints xs) t) (xs.length - 1)) 0)

/-- One column of `_subsample_condition_matrix`: the hires column `vals`
over `hiresFrametimes`, evaluated at every `ft + tr / 2` for `ft` in the
acquisition frametimes. -/
def subsample_column (hiresFrametimes vals : List ℚ) (frametimes : List ℚ)
    (tr : ℚ) : Option (List ℚ) :=
  match frametimes with
  | [] => some []
  | ft :: rest =>
      match interp1d_nearest hiresFrametimes vals (ft + tr / 2),
            subsample_column hiresFrametimes vals rest tr with
      | some v, some vs => some (v :: vs)
      | _, _ => none

/-! ### The caller's event table: the default-column step of
`DesignMatrix.__init__`

`if "duration" not in design: design["duration"] = 0` (and likewise
`"value" = 1`) assigns new columns on the *caller's* DataFrame — Python
passes the object by reference and nothing is copied first — so the caller's
table after construction is the value of `init_design_defaults` below. -/

/-- An event table: named columns of values (non-numeric cells such as
condition labels are represented by numeric codes; only the column
structure matters here). -/
structure EventTable where
  cols : List (String × List ℚ)
  deriving DecidableEq

/-- The table's column names. -/
def colNames (t : EventTable) : List String := t.cols.map Prod.fst

/-- Number of rows (length of the first column). -/
def nrows (t : EventTable) : ℕ :=
  match t.cols with
  | [] => 0
  | (_, c) :: _ => c.length

/-- `if name not in design: design[name] = v` — appends a constant column
in place when absent. -/
def set_default_column (t : EventTable) (name : String) (v : ℚ) : EventTable :=
  if name ∈ colNames t then t
  else ⟨t.cols ++ [(name, List.replicate (nrows t) v)]⟩

/-- The state of the caller's `design` table after the two defaulting
statements at the top of `DesignMatrix.__init__`. -/
def init_design_defaults (design : EventTable) : EventTable :=
  set_default_column (set_default_column design "duration" 0) "value" 1

/-! ### `fsl_highpass_matrix(ntp, cutoff, tr)`

```
cutoff = cutoff / tr
sig2n = np.square(cutoff / np.sqrt(2))
kernel = np.exp(-np.square(np.arange(ntp)) / (2 * sig2n))
kernel = 1 / np.sqrt(2 * np.pi * sig2n) * kernel
K = sp.linalg.toeplitz(kernel)
K = np.dot(np.diag(1 / K.sum(axis=1)), K)
X = np.column_stack((np.ones(ntp), np.arange(ntp)))
for k in range(ntp):
    W = np.diag(K[k])
    hat = np.dot(np.dot(X, np.linalg.pinv(np.dot(W, X))), W)
    H[k] = hat[k]
F = np.eye(ntp) - H
```
-/

/-- `sig2n = np.square((cutoff / tr) / np.sqrt(2))`. -/
noncomputable def hpf_sig2n (cutoff tr : ℝ) : ℝ :=
  ((cutoff / tr) / Real.sqrt 2) ^ 2

/-- The normalized Gaussian lag kernel over `np.arange(ntp)`. -/
noncomputable def hpf_kernel (n : ℕ) (cutoff tr : ℝ) (i : Fin n) : ℝ :=
  1 / Real.sqrt (2 * Real.pi * hpf_sig2n cutoff tr) *
    Real.exp (-((i : ℝ) ^ 2) / (2 * hpf_sig2n cutoff tr))

/-- `sp.linalg.toeplitz(kernel)`: entry `(i, j)` is `kernel[|i - j|]`. -/
noncomputable def hpf_toeplitz (n : ℕ) (cutoff tr : ℝ) : Matrix (Fin n) (Fin n) ℝ :=
  Matrix.of fun i j =>
    hpf_kernel n cutoff tr
      ⟨max i.val j.val - min i.val j.val, by
        have h1 := i.isLt
        have h2 := j.isLt
        omega⟩

/-- `np.dot(np.diag(1 / K.sum(axis=1)), K)`: the row-normalized weight
matrix. -/
noncomputable def hpf_rowNorm (n : ℕ) (cutoff tr : ℝ) : Matrix (Fin n) (Fin n) ℝ :=
  Matrix.of fun i j =>
    1 / (∑ j2, hpf_toeplitz n cutoff tr i j2) * hpf_toeplitz n cutoff tr i j

/-- `X = np.column_stack((np.ones(ntp), np.arange(ntp)))`. -/
noncomputable def hpf_X (n : ℕ) : Matrix (Fin n) (Fin 2) ℝ :=
  Matrix.of fun i c => if c = 0 then 1 else (i : ℝ)

/-- `np.linalg.pinv` computes the Moore–Penrose pseudoinverse; on a matrix
with full column rank — the only case reached below, established by
`weighted_gram_det_pos` — it equals `(Aᵀ A)⁻¹ Aᵀ`, which is how it is
embedded.
-/
noncomputable def pinv_fullrank {m n : ℕ} (A : Matrix (Fin m) (Fin n) ℝ) :
    Matrix (Fin n) (Fin m) ℝ :=
  (Aᵀ * A)⁻¹ * Aᵀ

/-- `W = np.diag(K[k])` for row `k` of the row-normalized weight matrix. -/
noncomputable def hpf_W (n : ℕ) (cutoff tr : ℝ) (k : Fin n) :
    Matrix (Fin n) (Fin n) ℝ :=
  Matrix.diagonal (fun j => hpf_rowNorm n cutoff tr k j)

/-- `hat = X @ pinv(W @ X) @ W` for timepoint `k`. -/
noncomputable def hpf_hat (n : ℕ) (cutoff tr : ℝ) (k : Fin n) :
    Matrix (Fin n) (Fin n) ℝ :=
  hpf_X n * pinv_fullrank (hpf_W n cutoff tr k * hpf_X n) * hpf_W n cutoff tr k

/-- `H[k] = hat[k]`: row `k` of the hat matrix built from row `k`'s
weights. -/
noncomputable def hpf_H (n : ℕ) (cutoff tr : ℝ) : Matrix (Fin n) (Fin n) ℝ :=
  Matrix.of fun k j => hpf_hat n cutoff tr k k j

/-- `F = np.eye(ntp) - H`. -/
noncomputable def fsl_highpass_matrix (n : ℕ) (cutoff tr : ℝ) :
    Matrix (Fin n) (Fin n) ℝ :=
  1 - hpf_H n cutoff tr

end Moss

namespace Moss

/-! ### Theorems -/

/-- Element `j` of `(List.range n).map f` is `f j`. -/
theorem getD_range_map (n : ℕ) (f : ℕ → ℚ) (j : ℕ) (hj : j < n) :
    ((List.range n).map f).getD j 0 = f j := by
  rw [List.getD_eq_getElem _ _ (by simpa using hj)]
  simp

/-- Summing the onset/offset deltas up to `j` leaves `value` on `[tOn, tOff)`
and `0` elsewhere. -/
theorem sum_evDeltas (tOn tOff : ℕ) (value : ℚ) (j : ℕ) :
    ∑ k ∈ Finset.range (j + 1), evDeltas tOn tOff value k =
      (if tOn ≤ j then value else 0) + (if tOff ≤ j then -value else 0) := by
  unfold evDeltas
  rw [Finset.sum_add_distrib]
  rw [Finset.sum_ite_eq' (Finset.range (j + 1)) tOn (fun _ => value)]
  rw [Finset.sum_ite_eq' (Finset.range (j + 1)) tOff (fun _ => -value)]
  simp [Nat.lt_succ_iff]

/-- C1: for a single event with `duration = 0` on any nonempty hires grid,
if the clamped onset index is not the last grid index then the encoded hires
timecourse is `value` at exactly the onset sample and `0` elsewhere; if the
onset index is the last grid index, the add/subtract pair cancels and the
timecourse is `0` everywhere. -/
theorem C1_zero_duration_pulse (hft : List ℚ) (onset value : ℚ)
    (_hne : 0 < hft.length) :
    (min (searchsorted hft onset) (hft.length - 1) ≠ hft.length - 1 →
      ∀ j < hft.length,
        (make_hires_ev_base hft onset 0 value).getD j 0 =
          if j = min (searchsorted hft onset) (hft.length - 1) then value else 0) ∧
    (min (searchsorted hft onset) (hft.length - 1) = hft.length - 1 →
      ∀ j < hft.length, (make_hires_ev_base hft onset 0 value).getD j 0 = 0) := by
  set n := hft.length with hn
  set tOn := min (searchsorted hft onset) (n - 1) with htOn
  have htOn_le : tOn ≤ n - 1 := min_le_right _ _
  have hoff0 : min (searchsorted hft (onset + 0)) (n - 1) = tOn := by
    rw [add_zero]
  constructor
  · intro hlast j hj
    have htOn_lt : tOn < n - 1 := lt_of_le_of_ne htOn_le hlast
    have hbump : (if tOn < n - 1 ∧ tOn = tOn then tOn + 1 else tOn) = tOn + 1 := by
      simp [htOn_lt]
    unfold make_hires_ev_base
    rw [getD_range_map n _ j hj]
    rw [hoff0, hbump, sum_evDeltas]
    rcases lt_trichotomy j tOn with hcase | hcase | hcase
    · have h1 : ¬ tOn ≤ j := not_le.mpr hcase
      have h2 : ¬ tOn + 1 ≤ j := by omega
      simp [h1, h2, Nat.ne_of_lt hcase]
    · simp [hcase, Nat.not_succ_le_self]
    · have h1 : tOn ≤ j := le_of_lt hcase
      have h2 : tOn + 1 ≤ j := hcase
      simp [h1, h2, (Nat.ne_of_lt hcase).symm]
  · intro hlast j hj
    have hbump : (if tOn < n - 1 ∧ tOn = tOn then tOn + 1 else tOn) = tOn := by
      simp [hlast]
    unfold make_hires_ev_base
    rw [getD_range_map n _ j hj]
    rw [hoff0, hbump, sum_evDeltas]
    by_cases h : tOn ≤ j <;> simp [h]

/-- Witness for C1 at a concrete grid: `hft = [0, 1, 2]`, `onset = 1`,
`value = 5`; the onset index is `1`, not the last index. -/
theorem C1_zero_duration_pulse_witness :
    (0 : ℕ) < ([0, 1, 2] : List ℚ).length ∧
      min (searchsorted [0, 1, 2] 1) (([0, 1, 2] : List ℚ).length - 1) ≠
        ([0, 1, 2] : List ℚ).length - 1 ∧
      (make_hires_ev_base [0, 1, 2] 1 0 5).getD 1 0 =
        if 1 = min (searchsorted [0, 1, 2] 1) (([0, 1, 2] : List ℚ).length - 1)
        then (5 : ℚ) else 0 :=
  ⟨by decide, by decide,
    (C1_zero_duration_pulse [0, 1, 2] 1 5 (by decide)).1 (by decide) 1 (by decide)⟩

/-- C2: after the final `X -= X.mean(axis=0)`, every column of the assembled
design matrix has mean exactly `0` over the (nonempty) acquisition grid,
whatever the assembled columns were. -/
theorem C2_columns_mean_zero (n : ℕ) (cols : List (Fin n → ℚ)) (hn : 0 < n) :
    ∀ c ∈ demeanMatrix n cols, colMean n c = 0 := by
  intro c hc
  rcases List.mem_map.mp hc with ⟨c0, _, rfl⟩
  have hne : (n : ℚ) ≠ 0 := Nat.cast_ne_zero.mpr hn.ne'
  unfold colMean demeanCol colMean
  rw [Finset.sum_sub_distrib, Finset.sum_const]
  rw [Finset.card_univ, Fintype.card_fin]
  field_simp

/-- Witness for C2 on a concrete assembled matrix (`n = 2`, one column). -/
theorem C2_columns_mean_zero_witness :
    colMean 2 (demeanCol 2 ![1, 3]) = 0 :=
  C2_columns_mean_zero 2 [![1, 3]] (by norm_num) _ (by simp [demeanMatrix])

/-- C3 divergence: the body of `FIR.__init__` returns the
`NotImplementedError` class instead of raising anything, so `FIR()` fails
with `TypeError` from CPython's constructor machinery — not with the
`UnsupportedModel`/`NotImplementedError` the spec requires. -/
theorem C3_fir_returns_not_raises :
    FIR_init_body = PyOutcome.returns (PyVal.excClass "NotImplementedError") ∧
    (∀ e, FIR_init_body ≠ PyOutcome.raises e) ∧
    constructFIR = PyOutcome.raises "TypeError" := by
  refine ⟨rfl, ?_, rfl⟩
  intro e h
  simp [FIR_init_body] at h

/-- C4 counterexample: a one-row confound with the plain positional index
`[0]` against the three-point acquisition grid `[0, 2, 4]`.  The claim's
success condition holds (the index is the positional range `0..n-1`), yet
validation does not succeed: the reindex `comp.index = self.frametimes`
raises pandas' length-mismatch `ValueError`, so the claim as stated is
false. -/
theorem C4_component_alignment_counterexample :
    ([0] : List ℚ) = (List.range ([[(1 : ℚ)]] : List (List ℚ)).length).map
        (fun i => (i : ℚ)) ∧
    validate_component [0, 2, 4] "confound"
        (some (PyComponent.df [0] [ColLabel.str "a"] [[1]])) =
      Except.error
        "Length mismatch: Expected axis has 1 elements, new values have 3 elements" := by
  constructor
  · decide
  · rfl

/-- C4 amended: a labelled component whose index equals the acquisition
frametimes or the plain positional range `0..n-1` is accepted — and
reindexed onto the frametimes with its data intact — exactly when its row
count equals the acquisition grid length; with a matching index but a
different row count the reindex raises a length-mismatch error, and with an
index matching neither pattern validation raises the alignment error.
Misaligned components are never silently accepted. -/
theorem C4_component_alignment_rows (frametimes : List ℚ) (base : String)
    (idx : List ℚ) (names : List ColLabel) (data : List (List ℚ)) :
    ((idx = frametimes ∨ idx = (List.range data.length).map (fun i => (i : ℚ))) →
      data.length = frametimes.length →
      ∃ d : DFrame,
        validate_component frametimes base (some (PyComponent.df idx names data)) =
          Except.ok (some d) ∧ d.index = frametimes ∧ d.data = data) ∧
    ((idx = frametimes ∨ idx = (List.range data.length).map (fun i => (i : ℚ))) →
      data.length ≠ frametimes.length →
      validate_component frametimes base (some (PyComponent.df idx names data)) =
        Except.error ("Length mismatch: Expected axis has " ++
          toString data.length ++ " elements, new values have " ++
          toString frametimes.length ++ " elements")) ∧
    (¬ (idx = frametimes ∨ idx = (List.range data.length).map (fun i => (i : ℚ))) →
      validate_component frametimes base (some (PyComponent.df idx names data)) =
        Except.error ("Frametimes for " ++ base ++ "s do not match design.")) := by
  unfold validate_component validate_df
  dsimp only
  refine ⟨?_, ?_, ?_⟩
  · intro hmatch hlen
    rw [if_pos hmatch, if_pos hlen]
    exact ⟨_, rfl, rfl, rfl⟩
  · intro hmatch hlen
    rw [if_pos hmatch, if_neg hlen]
  · intro hmatch
    rw [if_neg hmatch]

/-- Witness for C4 amended: a two-row confound with the positional index
`[0, 1]` against the two-point grid `[0, 2]` is accepted and reindexed onto
the frametimes. -/
theorem C4_component_alignment_rows_witness :
    ∃ d : DFrame,
      validate_component [0, 2] "confound"
          (some (PyComponent.df [0, 1] [ColLabel.str "a"] [[1], [2]])) =
        Except.ok (some d) ∧ d.index = [0, 2] ∧ d.data = [[1], [2]] :=
  (C4_component_alignment_rows [0, 2] "confound" [0, 1] [ColLabel.str "a"]
    [[1], [2]]).1 (Or.inr (by decide)) (by decide)

/-- C6: an artifact mask with no `True` entry is degraded to `None` in
`__init__`, so no artifact names exist and `artifact_submatrix` is `None`
rather than a zero-column table — whatever the assembled matrix holds. -/
theorem C6_all_false_artifacts_none (mask : List Bool)
    (h : ∀ b ∈ mask, b = false) (X : List (ColLabel × List ℚ)) :
    process_artifacts (some mask) = none ∧
    artifact_submatrix (artifact_names (some mask)) X = none := by
  have hany : mask.any (fun b => b) = false := by
    rw [List.any_eq_false]
    intro b hb
    simp [h b hb]
  have hproc : process_artifacts (some mask) = none := by
    simp [process_artifacts, hany]
  refine ⟨hproc, ?_⟩
  simp [artifact_names, hproc, artifact_submatrix]

/-- Witness for C6 at the concrete all-`False` mask `[false, false]`. -/
theorem C6_all_false_artifacts_none_witness :
    process_artifacts (some [false, false]) = none ∧
    artifact_submatrix (artifact_names (some [false, false]))
        [(ColLabel.str "A", [1, 2])] = none :=
  C6_all_false_artifacts_none [false, false] (by decide) [(ColLabel.str "A", [1, 2])]

/-- Entry `j < cols.length` of `cols.isin(names)`. -/
theorem isinMask_getD (cols names : List String) (j : ℕ) (hj : j < cols.length) :
    (isinMask cols names).getD j false = decide (cols.getD j "" ∈ names) := by
  unfold isinMask
  rw [List.getD_eq_getElem _ _ (by simpa using hj), List.getD_eq_getElem _ _ hj]
  simp

/-- Entries past the end of `cols.isin(names)` default to `false`. -/
theorem isinMask_getD_ge (cols names : List String) (j : ℕ)
    (hj : cols.length ≤ j) : (isinMask cols names).getD j false = false := by
  unfold isinMask
  apply List.getD_eq_default
  simpa using hj

/-- Entry `j < cols.length` of an optional `cols.isin` mask is membership of
column `j` in the (possibly absent) name list. -/
theorem optMaskAt_component (cols : List String) (o : Option (List String))
    (j : ℕ) (hj : j < cols.length) :
    optMaskAt (o.map (fun cn => isinMask cols cn)) j =
      decide (cols.getD j "" ∈ o.getD []) := by
  cases o with
  | none => simp [optMaskAt]
  | some cn => simpa [optMaskAt] using isinMask_getD cols cn j hj

/-- Entries past the end of an optional `cols.isin` mask are `false`. -/
theorem optMaskAt_component_ge (cols : List String) (o : Option (List String))
    (j : ℕ) (hj : cols.length ≤ j) :
    optMaskAt (o.map (fun cn => isinMask cols cn)) j = false := by
  cases o with
  | none => simp [optMaskAt]
  | some cn => simpa [optMaskAt] using isinMask_getD_ge cols cn j hj

/-- C5 counterexample: one condition `"A"` with a temporal-derivative HRF
and no regressors/confounds/artifacts.  The design matrix has columns
`["A", "A_deriv"]` but `main_names = ["A"]`, so the union of the masks
misses column 1 (`"A_deriv"`): the claim as stated is false. -/
theorem C5_masks_counterexample :
    ¬ masks_cover ["A"] true none none none := by
  intro h
  have h1 := h 1 (by simp [design_columns, condition_columns])
  simp [coveredAt, main_vector, confound_vector, artifact_vector, optMaskAt,
    isinMask, design_columns, condition_columns, deriv_name] at h1

/-- C5 amended: provided the condition, regressor, confound and artifact
names are pairwise disjoint and no supplied name collides with a derivative
column name, the three masks are pairwise mutually exclusive and their union
covers exactly the non-derivative columns — so every column when the HRF
model has no temporal-derivative channel, and all but the `*_deriv` columns
when it does. -/
theorem C5_masks_partition (condNames : List String) (deriv : Bool)
    (regs confs arts : Option (List String))
    (hdc : ∀ c ∈ condNames ++ regs.getD [], c ∉ confs.getD [])
    (hda : ∀ c ∈ condNames ++ regs.getD [], c ∉ arts.getD [])
    (hca : ∀ c ∈ confs.getD [], c ∉ arts.getD [])
    (hderiv : ∀ c ∈ condNames.map deriv_name,
      c ∉ condNames ++ regs.getD [] ++ confs.getD [] ++ arts.getD []) :
    masks_exclusive condNames deriv regs confs arts ∧
    ∀ j, j < (design_columns condNames deriv regs confs arts).length →
      (coveredAt condNames deriv regs confs arts j = true ↔
        (design_columns condNames deriv regs confs arts).getD j "" ∉
          condNames.map deriv_name) := by
  constructor
  · intro j
    by_cases hj : j < (design_columns condNames deriv regs confs arts).length
    · simp only [main_vector, confound_vector, artifact_vector]
      rw [isinMask_getD _ _ _ hj, optMaskAt_component _ _ _ hj,
        optMaskAt_component _ _ _ hj]
      simp only [decide_eq_true_eq]
      refine ⟨?_, ?_, ?_⟩
      · rintro ⟨h1, h2⟩; exact hdc _ h1 h2
      · rintro ⟨h1, h2⟩; exact hda _ h1 h2
      · rintro ⟨h1, h2⟩; exact hca _ h1 h2
    · simp only [main_vector, confound_vector, artifact_vector]
      rw [isinMask_getD_ge _ _ _ (le_of_not_lt hj),
        optMaskAt_component_ge _ _ _ (le_of_not_lt hj),
        optMaskAt_component_ge _ _ _ (le_of_not_lt hj)]
      simp
  · intro j hj
    simp only [coveredAt, main_vector, confound_vector, artifact_vector]
    rw [isinMask_getD _ _ _ hj, optMaskAt_component _ _ _ hj,
      optMaskAt_component _ _ _ hj]
    simp only [Bool.or_eq_true, decide_eq_true_eq]
    set c := (design_columns condNames deriv regs confs arts).getD j "" with hc
    have hmem : c ∈ condition_columns condNames deriv ++ regs.getD [] ++
        confs.getD [] ++ arts.getD [] := by
      have : c ∈ design_columns condNames deriv regs confs arts := by
        rw [hc, List.getD_eq_getElem _ _ hj]
        exact List.getElem_mem hj
      simpa only [design_columns] using this
    constructor
    · rintro ((h | h) | h) hd
      · exact hderiv _ hd (List.mem_append_left _ (List.mem_append_left _ h))
      · exact hderiv _ hd (List.mem_append_left _ (List.mem_append_right _ h))
      · exact hderiv _ hd (List.mem_append_right _ h)
    · intro hnd
      rcases List.mem_append.mp hmem with h3 | hart
      · rcases List.mem_append.mp h3 with h2 | hconf
        · rcases List.mem_append.mp h2 with hcond | hreg
          · have hcml : c ∈ condNames := by
              cases deriv with
              | false => simpa [condition_columns] using hcond
              | true =>
                  have hsplit : c ∈ condNames ∨ c ∈ condNames.map deriv_name := by
                    simpa [condition_columns] using hcond
                  rcases hsplit with hc1 | hc1
                  · exact hc1
                  · exact absurd hc1 hnd
            exact Or.inl (Or.inl (List.mem_append_left _ hcml))
          · exact Or.inl (Or.inl (List.mem_append_right _ hreg))
        · exact Or.inl (Or.inr hconf)
      · exact Or.inr hart

/-- Witness for C5 amended: condition `"A"`, derivative on, one confound
`"motion"`; the non-derivative columns are exactly the covered ones. -/
theorem C5_masks_partition_witness :
    masks_exclusive ["A"] true none (some ["motion"]) none ∧
    ∀ j, j < (design_columns ["A"] true none (some ["motion"]) none).length →
      (coveredAt ["A"] true none (some ["motion"]) none j = true ↔
        (design_columns ["A"] true none (some ["motion"]) none).getD j "" ∉
          (["A"].map deriv_name)) :=
  C5_masks_partition ["A"] true none (some ["motion"]) none
    (by decide) (by decide) (by decide) (by decide)

/-- Length bookkeeping for the in-place column defaulting. -/
theorem set_default_column_length (t : EventTable) (name : String) (v : ℚ) :
    (set_default_column t name v).cols.length =
      if name ∈ colNames t then t.cols.length else t.cols.length + 1 := by
  unfold set_default_column
  split <;> simp

/-- C9 counterexample: an event table with only `condition` and `onset`
columns is not left unchanged — the constructor assigns `duration` and
`value` columns on the caller's table in place. -/
theorem C9_input_table_mutated :
    init_design_defaults ⟨[("condition", [0]), ("onset", [3])]⟩ ≠
      (⟨[("condition", [0]), ("onset", [3])]⟩ : EventTable) := by
  decide

/-- C9 amended: construction leaves the caller's event table unchanged
exactly when the table already has both a `duration` and a `value` column;
when either is missing the constructor appends that column (constant `0`
resp. `1`) to the caller's table in place. -/
theorem C9_unchanged_iff_defaults_present (design : EventTable) :
    init_design_defaults design = design ↔
      ("duration" ∈ colNames design ∧ "value" ∈ colNames design) := by
  constructor
  · intro h
    by_cases hdur : "duration" ∈ colNames design
    · by_cases hval : "value" ∈ colNames design
      · exact ⟨hdur, hval⟩
      · exfalso
        have ht1 : set_default_column design "duration" 0 = design := by
          simp [set_default_column, hdur]
        rw [init_design_defaults, ht1] at h
        have hlen : (set_default_column design "value" 1).cols.length =
            design.cols.length + 1 := by
          simp [set_default_column_length, hval]
        rw [h] at hlen
        omega
    · exfalso
      have h1 : (set_default_column design "duration" 0).cols.length =
          design.cols.length + 1 := by
        simp [set_default_column_length, hdur]
      have h2 : design.cols.length + 1 ≤ (init_design_defaults design).cols.length := by
        rw [init_design_defaults, set_default_column_length, h1]
        split <;> omega
      rw [h] at h2
      omega
  · rintro ⟨hdur, hval⟩
    have ht1 : set_default_column design "duration" 0 = design := by
      simp [set_default_column, hdur]
    rw [init_design_defaults, ht1]
    simp [set_default_column, hval]

/-- C8: resampling a constant hires column of value `c` via nearest-neighbor
interpolation at `frametimes + tr / 2` returns `c` at every acquisition
timestamp, for every acquisition grid whose shifted timepoints lie within
the hires grid's support. -/
theorem C8_resample_constant (hft vals frametimes : List ℚ) (tr c : ℚ)
    (hlen : vals.length = hft.length)
    (hconst : ∀ v ∈ vals, v = c)
    (hne : 0 < hft.length)
    (hcover : ∀ ft ∈ frametimes,
      hft.headD 0 ≤ ft + tr / 2 ∧ ft + tr / 2 ≤ hft.getLastD 0) :
    subsample_column hft vals frametimes tr = some (frametimes.map (fun _ => c)) := by
  induction frametimes with
  | nil => rfl
  | cons ft rest ih =>
      have hint : interp1d_nearest hft vals (ft + tr / 2) = some c := by
        unfold interp1d_nearest
        rw [if_neg (List.length_pos.mp hne)]
        have hb := hcover ft (List.mem_cons_self ft rest)
        have hcond : ¬(ft + tr / 2 < hft.headD 0 ∨ hft.getLastD 0 < ft + tr / 2) := by
          push_neg
          exact ⟨hb.1, hb.2⟩
        rw [if_neg hcond]
        have hidx : min (searchsorted (consecMidpoints hft) (ft + tr / 2))
            (hft.length - 1) < vals.length := by
          rw [hlen]
          exact lt_of_le_of_lt (min_le_right _ _) (by omega)
        have hmemv : vals.getD (min (searchsorted (consecMidpoints hft) (ft + tr / 2))
            (hft.length - 1)) 0 ∈ vals := by
          rw [List.getD_eq_getElem _ _ hidx]
          exact List.getElem_mem hidx
        exact congrArg some (hconst _ hmemv)
      have hrest := ih (fun t ht => hcover t (List.mem_cons_of_mem ft ht))
      simp only [subsample_column, hint, hrest, List.map_cons]

/-- Summing a list divided elementwise by a constant. -/
theorem list_sum_map_div (l : List ℝ) (s : ℝ) :
    (l.map (fun v => v / s)).sum = l.sum / s := by
  induction l with
  | nil => simp
  | cons a t ih => simp [ih, add_div]

/-- `gamma.pdf(0, 1, scale=1) = 1`. -/
theorem gamma_pdf_one_one_zero : gamma_pdf 1 1 0 = 1 := by
  unfold gamma_pdf
  rw [if_neg (lt_irrefl 0)]
  norm_num [Real.rpow_zero, Real.Gamma_one, Real.one_rpow, Real.exp_zero]

/-- C7 counterexample: with `pos_shape = neg_shape = 6`,
`pos_scale = neg_scale = 1` and `ratio = 1` (and the default grid
parameters), the unnormalized kernel is identically zero, normalization
divides by zero, and the normalized kernel does not sum to `1` (numpy
produces NaN; with total real division every entry is `0`). -/
theorem C7_kernel_sum_counterexample :
    (gamma_diff_kernel 6 1 6 1 1 (hrf_timepoints 2 16 32)).sum ≠ 1 := by
  have hzero : ∀ v ∈ gamma_diff_raw 6 1 6 1 1 (hrf_timepoints 2 16 32), v = 0 := by
    intro v hv
    rcases List.mem_map.mp hv with ⟨t, _, rfl⟩
    ring
  have h1 : ∀ v ∈ gamma_diff_kernel 6 1 6 1 1 (hrf_timepoints 2 16 32), v = 0 := by
    intro v hv
    rcases List.mem_map.mp hv with ⟨w, hw, rfl⟩
    rw [hzero w hw, zero_div]
  rw [List.sum_eq_zero h1]
  norm_num

/-- C7 amended: for every choice of shape, scale and ratio parameters (and
every grid configuration) for which the unnormalized gamma-difference
kernel has nonzero sum, the normalized kernel sums to exactly `1`. -/
theorem C7_kernel_sums_to_one (posShape posScale negShape negScale rho : ℝ)
    (tr oversampling kernelSecs : ℚ)
    (hsum : (gamma_diff_raw posShape posScale negShape negScale rho
      (hrf_timepoints tr oversampling kernelSecs)).sum ≠ 0) :
    (gamma_diff_kernel posShape posScale negShape negScale rho
      (hrf_timepoints tr oversampling kernelSecs)).sum = 1 := by
  unfold gamma_diff_kernel
  rw [list_sum_map_div]
  exact div_self hsum

/-- Witness for C7 amended: shapes and scales `1`, ratio `0`, and a grid
with a single timepoint `0`, where the unnormalized sum is `1 ≠ 0`. -/
theorem C7_kernel_sums_to_one_witness :
    (gamma_diff_kernel 1 1 1 1 0 (hrf_timepoints 2 1 2)).sum = 1 := by
  have htps : hrf_timepoints 2 1 2 = [0] := by
    have hnum : (((2 : ℚ) / ((2 : ℚ) / (1 : ℚ))).floor).toNat = 1 := by
      norm_num
      rfl
    unfold hrf_timepoints
    rw [hnum]
    unfold linspace
    simp
  refine C7_kernel_sums_to_one 1 1 1 1 0 2 1 2 ?_
  rw [htps]
  unfold gamma_diff_raw
  simp [gamma_pdf_one_one_zero]

/-- The Gaussian variance `sig2n` is positive for positive cutoff and TR. -/
theorem hpf_sig2n_pos (cutoff tr : ℝ) (hcut : 0 < cutoff) (htr : 0 < tr) :
    0 < hpf_sig2n cutoff tr := by
  unfold hpf_sig2n
  have h1 : 0 < cutoff / tr := div_pos hcut htr
  have h2 : 0 < Real.sqrt 2 := Real.sqrt_pos.mpr (by norm_num)
  exact pow_pos (div_pos h1 h2) 2

/-- Every entry of the Gaussian lag kernel is strictly positive. -/
theorem hpf_kernel_pos (n : ℕ) (cutoff tr : ℝ) (hcut : 0 < cutoff)
    (htr : 0 < tr) (i : Fin n) : 0 < hpf_kernel n cutoff tr i := by
  unfold hpf_kernel
  have hs := hpf_sig2n_pos cutoff tr hcut htr
  have harg : 0 < 2 * Real.pi * hpf_sig2n cutoff tr :=
    mul_pos (mul_pos two_pos Real.pi_pos) hs
  have hsq : 0 < Real.sqrt (2 * Real.pi * hpf_sig2n cutoff tr) :=
    Real.sqrt_pos.mpr harg
  exact mul_pos (by positivity) (Real.exp_pos _)

/-- Every entry of the Toeplitz weight matrix is strictly positive. -/
theorem hpf_toeplitz_pos (n : ℕ) (cutoff tr : ℝ) (hcut : 0 < cutoff)
    (htr : 0 < tr) (i j : Fin n) : 0 < hpf_toeplitz n cutoff tr i j :=
  hpf_kernel_pos n cutoff tr hcut htr _

/-- Every entry of the row-normalized weight matrix is strictly positive. -/
theorem hpf_rowNorm_pos (n : ℕ) (cutoff tr : ℝ) (hn : 0 < n)
    (hcut : 0 < cutoff) (htr : 0 < tr) (k j : Fin n) :
    0 < hpf_rowNorm n cutoff tr k j := by
  unfold hpf_rowNorm
  have hsum : 0 < ∑ j2, hpf_toeplitz n cutoff tr k j2 :=
    Finset.sum_pos (fun j2 _ => hpf_toeplitz_pos n cutoff tr hcut htr k j2)
      ⟨⟨0, hn⟩, Finset.mem_univ _⟩
  exact mul_pos (by positivity) (hpf_toeplitz_pos n cutoff tr hcut htr k j)

/-- Entries of the weighted Gram matrix `(W X)ᵀ (W X)`. -/
theorem weighted_gram_entries (n : ℕ) (w : Fin n → ℝ) (a b : Fin 2) :
    ((Matrix.diagonal w * hpf_X n)ᵀ * (Matrix.diagonal w * hpf_X n)) a b =
      ∑ i, w i ^ 2 * (hpf_X n i a * hpf_X n i b) := by
  rw [Matrix.mul_apply]
  apply Finset.sum_congr rfl
  intro i _
  rw [Matrix.transpose_apply, Matrix.diagonal_mul, Matrix.diagonal_mul]
  ring

/-- The first design column is constant `1`. -/
theorem hpf_X_zero (n : ℕ) (i : Fin n) : hpf_X n i 0 = 1 := by
  simp [hpf_X]

/-- The second design column is the time index. -/
theorem hpf_X_one (n : ℕ) (i : Fin n) : hpf_X n i 1 = (i : ℝ) := by
  simp [hpf_X]

/-- Determinant of the weighted Gram matrix:
`(∑ w²) · (∑ w² t²) − (∑ w² t)²`. -/
theorem weighted_gram_det (n : ℕ) (w : Fin n → ℝ) :
    ((Matrix.diagonal w * hpf_X n)ᵀ * (Matrix.diagonal w * hpf_X n)).det =
      (∑ i, w i ^ 2) * (∑ i, w i ^ 2 * ((i : ℝ) * i)) -
        (∑ i, w i ^ 2 * (i : ℝ)) * (∑ i, w i ^ 2 * (i : ℝ)) := by
  have s00 : (∑ i, w i ^ 2 * (hpf_X n i 0 * hpf_X n i 0)) = ∑ i, w i ^ 2 := by
    apply Finset.sum_congr rfl
    intro i _
    rw [hpf_X_zero]
    ring
  have s01 : (∑ i, w i ^ 2 * (hpf_X n i 0 * hpf_X n i 1)) =
      ∑ i, w i ^ 2 * (i : ℝ) := by
    apply Finset.sum_congr rfl
    intro i _
    rw [hpf_X_zero, hpf_X_one]
    ring
  have s10 : (∑ i, w i ^ 2 * (hpf_X n i 1 * hpf_X n i 0)) =
      ∑ i, w i ^ 2 * (i : ℝ) := by
    apply Finset.sum_congr rfl
    intro i _
    rw [hpf_X_zero, hpf_X_one]
    ring
  have s11 : (∑ i, w i ^ 2 * (hpf_X n i 1 * hpf_X n i 1)) =
      ∑ i, w i ^ 2 * ((i : ℝ) * i) := by
    apply Finset.sum_congr rfl
    intro i _
    rw [hpf_X_one]
  rw [Matrix.det_fin_two, weighted_gram_entries, weighted_gram_entries,
    weighted_gram_entries, weighted_gram_entries, s00, s01, s10, s11]

/-- The weighted Gram determinant is strictly positive when all weights are
and there are at least two timepoints (full column rank of `W X`). -/
theorem weighted_gram_det_pos (n : ℕ) (hn : 2 ≤ n) (w : Fin n → ℝ)
    (hw : ∀ i, 0 < w i) :
    0 < ((Matrix.diagonal w * hpf_X n)ᵀ * (Matrix.diagonal w * hpf_X n)).det := by
  rw [weighted_gram_det]
  have e1 : (∑ i, w i ^ 2) * (∑ i, w i ^ 2 * ((i : ℝ) * i)) =
      ∑ i, ∑ j, w i ^ 2 * (w j ^ 2 * ((j : ℝ) * j)) :=
    Fintype.sum_mul_sum _ _
  have e2 : (∑ i, w i ^ 2 * ((i : ℝ) * i)) * (∑ i, w i ^ 2) =
      ∑ i, ∑ j, (w i ^ 2 * ((i : ℝ) * i)) * w j ^ 2 :=
    Fintype.sum_mul_sum _ _
  have e3 : (∑ i, w i ^ 2 * (i : ℝ)) * (∑ i, w i ^ 2 * (i : ℝ)) =
      ∑ i, ∑ j, (w i ^ 2 * (i : ℝ)) * (w j ^ 2 * (j : ℝ)) :=
    Fintype.sum_mul_sum _ _
  have hsplit : (∑ i, ∑ j, w i ^ 2 * w j ^ 2 * ((i : ℝ) - (j : ℝ)) ^ 2) =
      (∑ i, ∑ j, w i ^ 2 * (w j ^ 2 * ((j : ℝ) * j))) +
        (∑ i, ∑ j, (w i ^ 2 * ((i : ℝ) * i)) * w j ^ 2) -
        (∑ i, ∑ j, (w i ^ 2 * (i : ℝ)) * (w j ^ 2 * (j : ℝ))) -
        (∑ i, ∑ j, (w i ^ 2 * (i : ℝ)) * (w j ^ 2 * (j : ℝ))) := by
    simp only [← Finset.sum_add_distrib, ← Finset.sum_sub_distrib]
    apply Finset.sum_congr rfl
    intro i _
    apply Finset.sum_congr rfl
    intro j _
    ring
  have hpos : 0 < ∑ i, ∑ j, w i ^ 2 * w j ^ 2 * ((i : ℝ) - (j : ℝ)) ^ 2 := by
    apply Finset.sum_pos'
    · intro i _
      apply Finset.sum_nonneg
      intro j _
      positivity
    · refine ⟨⟨0, by omega⟩, Finset.mem_univ _, ?_⟩
      apply Finset.sum_pos'
      · intro j _
        positivity
      · refine ⟨⟨1, by omega⟩, Finset.mem_univ _, ?_⟩
        have hv0 : (((⟨0, by omega⟩ : Fin n) : ℝ)) = 0 := by norm_num
        have hv1 : (((⟨1, by omega⟩ : Fin n) : ℝ)) = 1 := by norm_num
        rw [hv0, hv1]
        have h0 := hw ⟨0, by omega⟩
        have h1 := hw ⟨1, by omega⟩
        have : ((0 : ℝ) - 1) ^ 2 = 1 := by norm_num
        rw [this]
        have := mul_pos (pow_pos h0 2) (pow_pos h1 2)
        linarith
  have hc : (∑ i, w i ^ 2 * ((i : ℝ) * i)) * (∑ i, w i ^ 2) =
      (∑ i, w i ^ 2) * (∑ i, w i ^ 2 * ((i : ℝ) * i)) := mul_comm _ _
  linarith [e1, e2, e3, hsplit, hpos, hc]

/-- With positive weights the weighted hat matrix reproduces the design:
`X @ pinv(W X) @ W @ X = X`. -/
theorem weighted_hat_mul_X (n : ℕ) (hn : 2 ≤ n) (w : Fin n → ℝ)
    (hw : ∀ i, 0 < w i) :
    hpf_X n * pinv_fullrank (Matrix.diagonal w * hpf_X n) * Matrix.diagonal w *
      hpf_X n = hpf_X n := by
  have hdet : IsUnit ((Matrix.diagonal w * hpf_X n)ᵀ *
      (Matrix.diagonal w * hpf_X n)).det :=
    isUnit_iff_ne_zero.mpr (weighted_gram_det_pos n hn w hw).ne'
  unfold pinv_fullrank
  rw [Matrix.mul_assoc (hpf_X n * _) (Matrix.diagonal w) (hpf_X n),
    Matrix.mul_assoc (hpf_X n) _ (Matrix.diagonal w * hpf_X n),
    Matrix.mul_assoc _ ((Matrix.diagonal w * hpf_X n)ᵀ)
      (Matrix.diagonal w * hpf_X n),
    Matrix.nonsing_inv_mul _ hdet, Matrix.mul_one]

/-- With positive weights the rows of the hat matrix sum to `1`: the hat
matrix maps the constant-one vector to itself. -/
theorem weighted_hat_ones (n : ℕ) (hn : 2 ≤ n) (w : Fin n → ℝ)
    (hw : ∀ i, 0 < w i) :
    (hpf_X n * pinv_fullrank (Matrix.diagonal w * hpf_X n) *
        Matrix.diagonal w).mulVec (fun _ => (1 : ℝ)) = fun _ => 1 := by
  have hone : (hpf_X n).mulVec (fun a => if a = 0 then (1 : ℝ) else 0) =
      fun _ => 1 := by
    funext i
    simp [Matrix.mulVec, Matrix.dotProduct, Fin.sum_univ_two, hpf_X_zero,
      hpf_X_one]
  conv_lhs => rw [← hone]
  rw [Matrix.mulVec_mulVec, weighted_hat_mul_X n hn w hw, hone]

/-- C10: for every `ntp ≥ 2`, `cutoff > 0` and `tr > 0`, the highpass
filter matrix maps every constant vector to exactly zero: the Gaussian
weights are strictly positive, so each weighted-regression hat row
reproduces constants and `F = I - H` annihilates them, endpoints included.
-/
theorem C10_highpass_annihilates_constants (n : ℕ) (cutoff tr c : ℝ)
    (hn : 2 ≤ n) (hcut : 0 < cutoff) (htr : 0 < tr) :
    (fsl_highpass_matrix n cutoff tr).mulVec (fun _ => c) = 0 := by
  funext k
  have hw : ∀ j, 0 < hpf_rowNorm n cutoff tr k j :=
    hpf_rowNorm_pos n cutoff tr (by omega) hcut htr k
  have hones : (hpf_hat n cutoff tr k).mulVec (fun _ => (1 : ℝ)) = fun _ => 1 :=
    weighted_hat_ones n hn (fun j => hpf_rowNorm n cutoff tr k j) hw
  have hsum : (∑ j, hpf_hat n cutoff tr k k j) = 1 := by
    have := congrFun hones k
    simpa [Matrix.mulVec, Matrix.dotProduct] using this
  have hH : (hpf_H n cutoff tr).mulVec (fun _ => c) k =
      ∑ j, hpf_hat n cutoff tr k k j * c := by
    simp [Matrix.mulVec, Matrix.dotProduct, hpf_H]
  rw [fsl_highpass_matrix, Matrix.sub_mulVec, Matrix.one_mulVec]
  have : (hpf_H n cutoff tr).mulVec (fun _ => c) k = c := by
    rw [hH, ← Finset.sum_mul, hsum, one_mul]
  simp [this]

/-- Witness for C10 at `ntp = 2`, `cutoff = 1`, `tr = 1`, `c = 3`. -/
theorem C10_highpass_annihilates_constants_witness :
    (fsl_highpass_matrix 2 1 1).mulVec (fun _ => (3 : ℝ)) = 0 :=
  C10_highpass_annihilates_constants 2 1 1 3 (by norm_num) (by norm_num)
    (by norm_num)

/-- Witness for C8: hires grid `[0, 1]`, constant column `[7, 7]`, one
acquisition frame at `0`, `tr = 1`; the midpoint `1/2` lies inside the
support and the resampled value is `7`. -/
theorem C8_resample_constant_witness :
    subsample_column [0, 1] [7, 7] [0] 1 = some ([0].map (fun _ => (7 : ℚ))) :=
  C8_resample_constant [0, 1] [7, 7] [0] 1 7 rfl (by simp) (by norm_num)
    (by intro ft hft; rw [List.mem_singleton.mp hft]; norm_num)

end Moss
